import Mathlib

/-!
Verification of the AutoGenDemo orchestration core against its design notes.

The definitions below are shallow embeddings of the Python sources:
  * `Router` — `FallbackChatCompletionClient` in `src/config/model_client.py`
  * `Selector` — `custom_selector_func` in `src/agents/group_admin.py`
  * `Bridge` — `WorkflowBridge` in `src/web/bridge.py`
  * `Ws` — the subscribe/replay/live-delivery path of `websocket_endpoint`
    in `src/web/app.py`
  * `Reflection` — the bounded producer/critic loop configured by
    `src/workflow/reflection.py`
  * `Compare` — the threshold logic of `compare_screenshots_tool` in
    `src/utils/image_compare.py`
  * `Cancel` — the cancellation path of `WorkflowBridge.request_cancel` and
    `run_workflow_web` in `src/workflow/orchestrator.py`
Timestamps are rationals, responses and error payloads are numeric codes,
and message payloads are strings.
-/

namespace AutoGenDemo

/-! ### String containment

Python's `needle in haystack` substring test, written out over character
lists so it computes inside the kernel. -/

/-- Does the needle occur at the head of the haystack? -/
def charsAtHead : List Char → List Char → Bool
  | [], _ => true
  | _ :: _, [] => false
  | a :: as, b :: bs => a == b && charsAtHead as bs

/-- Does the needle occur anywhere in the haystack? -/
def charsHasSub (needle : List Char) : List Char → Bool
  | [] => charsAtHead needle []
  | h :: t => charsAtHead needle (h :: t) || charsHasSub needle t

/-- Python's `needle in hay` for strings. -/
def strHasSub (hay needle : String) : Bool :=
  charsHasSub needle.data hay.data

/-! ### The deterministic stage selector

Embedding of `custom_selector_func` (src/agents/group_admin.py, lines
66-111).  A message carries the two attributes the selector reads. -/

structure Msg where
  source : String
  content : String
deriving DecidableEq, Repr

/-- Embedding of `custom_selector_func`: the deterministic tier of the stage
scheduler.  `none` is Python's `None`, which hands the decision to the LLM
fallback selector. -/
def custom_selector_func (messages : List Msg) : Option String :=
  match messages.getLast? with
  | none => some "figma_analyzer"
  | some last =>
    if last.source == "code_reviewer" && strHasSub last.content "REVIEW_APPROVED" then
      some "result_reviewer"
    else if last.source == "code_reviewer" && strHasSub last.content "REVIEW_REJECTED" then
      some "code_writer"
    else if last.source == "result_reviewer" && strHasSub last.content "RESULT_REJECTED" then
      some "code_writer"
    else if last.source == "code_writer" then
      some "code_reviewer"
    else
      none

/-! ### The request router

Embedding of `FallbackChatCompletionClient.create` (src/config/model_client.py,
lines 71-134).  A backend attempt either succeeds with a response, fails with
a rate-limit (429) error, or fails with any other error.  The behaviour of
endpoint `i` during the scan is given by `beh i`; the behaviour of the single
post-wait retry of endpoint 0 is given separately, since it is a second call
that may behave differently. -/

inductive AttemptResult where
  | success (resp : Nat)
  | rateLimited
  | failure (err : Nat)
deriving DecidableEq, Repr

/-- The router's mutable state: `self._current_index` and `self._cooldowns`. -/
structure RouterState where
  currentIndex : Nat
  cooldowns : Nat → Option ℚ

/-- Python line 90: `idx in self._cooldowns and self._cooldowns[idx] > now`. -/
def cooldownActive (cds : Nat → Option ℚ) (idx : Nat) (now : ℚ) : Bool :=
  match cds idx with
  | some t => decide (now < t)
  | none => false

/-- Python line 110: `self._cooldowns[idx] = now + self._cooldown_seconds`. -/
def setCooldown (cds : Nat → Option ℚ) (idx : Nat) (t : ℚ) : Nat → Option ℚ :=
  fun j => if j = idx then some t else cds j

/-- Result of the first scan loop (lines 86-114). -/
inductive ScanResult where
  | found (resp : Nat) (idx : Nat) (cds : Nat → Option ℚ) (attempts : List Nat)
  | thrown (err : Nat) (cds : Nat → Option ℚ) (attempts : List Nat)
  | exhausted (cds : Nat → Option ℚ) (attempts : List Nat) (sawRateLimit : Bool)

/-- The scan loop itself, over the list of endpoint indices it will visit.
`attempts` records every endpoint actually attempted, in order, and
`sawRateLimit` is `last_error is not None` (only a rate-limit failure sets
`last_error`; any other failure ends the call at once). -/
def scanList (beh : Nat → AttemptResult) (now cdSec : ℚ) :
    List Nat → (Nat → Option ℚ) → List Nat → Bool → ScanResult
  | [], cds, atts, saw => .exhausted cds atts saw
  | idx :: rest, cds, atts, saw =>
    if cooldownActive cds idx now then
      scanList beh now cdSec rest cds atts saw
    else
      match beh idx with
      | .success r => .found r idx cds (atts ++ [idx])
      | .rateLimited =>
          scanList beh now cdSec rest (setCooldown cds idx (now + cdSec)) (atts ++ [idx]) true
      | .failure e => .thrown e cds (atts ++ [idx])

/-- Line 87: `idx = (self._current_index + i) % len(self._clients)` for
`i in range(len(self._clients))`. -/
def scanOrder (cur n : Nat) : List Nat :=
  (List.range n).map fun i => (cur + i) % n

/-- How a `create` call surfaces to the caller. -/
inductive CreateOutcome where
  | ok (resp : Nat)
  | errNonRateLimit (err : Nat)
  | errRateLimit
  | errNoClient
deriving DecidableEq, Repr

/-- Observable effect of one `create` call: its outcome, the router state it
leaves behind, every `asyncio.sleep` duration it performed, and the endpoints
it attempted, in order. -/
structure CreateTrace where
  outcome : CreateOutcome
  state : RouterState
  sleeps : List ℚ
  attempts : List Nat

/-- Embedding of `FallbackChatCompletionClient.create` (lines 71-134): scan all
endpoints from the preferred index, skipping cooling ones; on a rate-limit
failure record a cooldown and continue; on any other failure re-raise; if the
scan ends and a rate-limit error was seen, sleep, clear all cooldowns, reset
the preferred index to 0 and call endpoint 0 once more; otherwise raise
`RuntimeError`. -/
def create (n : Nat) (beh : Nat → AttemptResult) (retryBeh : AttemptResult)
    (now cdSec waitSec : ℚ) (st : RouterState) : CreateTrace :=
  match scanList beh now cdSec (scanOrder st.currentIndex n) st.cooldowns [] false with
  | .found r idx cds atts => ⟨.ok r, ⟨idx, cds⟩, [], atts⟩
  | .thrown e cds atts => ⟨.errNonRateLimit e, ⟨st.currentIndex, cds⟩, [], atts⟩
  | .exhausted cds atts saw =>
    if saw then
      match retryBeh with
      | .success r => ⟨.ok r, ⟨0, fun _ => none⟩, [waitSec], atts ++ [0]⟩
      | .rateLimited => ⟨.errRateLimit, ⟨0, fun _ => none⟩, [waitSec], atts ++ [0]⟩
      | .failure e => ⟨.errNonRateLimit e, ⟨0, fun _ => none⟩, [waitSec], atts ++ [0]⟩
    else ⟨.errNoClient, ⟨st.currentIndex, cds⟩, [], atts⟩

/-- The endpoints of a scan segment that the loop actually attempts: those not
cooling down when the call starts. -/
def rlAttempted (cds : Nat → Option ℚ) (now : ℚ) (pre : List Nat) : List Nat :=
  pre.filter fun x => !cooldownActive cds x now

/-- The cooldown map after a scan segment whose attempted endpoints all failed
with rate-limit errors: each attempted endpoint now carries the deadline
`now + cdSec`, everything else is untouched. -/
def cdsAfterRL (cds : Nat → Option ℚ) (now cdSec : ℚ) (pre : List Nat) : Nat → Option ℚ :=
  fun y => if y ∈ pre ∧ cooldownActive cds y now = false then some (now + cdSec) else cds y

/-! ### The event bridge

Embedding of `WorkflowBridge.emit` and `WorkflowBridge.emit_chunk`
(src/web/bridge.py, lines 58-81).  Each subscriber owns a FIFO queue; its
`dead` flag abstracts a queue whose non-blocking `put_nowait` raises (the
`except: pass` branch of `emit_chunk`).  `emit` uses `await put` on an
unbounded `asyncio.Queue`, which always appends. -/

structure BridgeMsg where
  source : String
  content : String
  msg_type : String
deriving DecidableEq, Repr

inductive BridgeEntry where
  | turn (m : BridgeMsg)
  | chunk (token : String)
deriving DecidableEq, Repr

structure Subscriber where
  queue : List BridgeEntry
  dead : Bool
deriving DecidableEq, Repr

structure BridgeSt where
  messages : List BridgeMsg
  subscribers : List Subscriber
deriving DecidableEq, Repr

/-- Embedding of `WorkflowBridge.emit`: append the durable turn to the history
and enqueue it to every currently registered subscriber. -/
def emit (st : BridgeSt) (source content msg_type : String) : BridgeSt :=
  let m : BridgeMsg := ⟨source, content, msg_type⟩
  { messages := st.messages ++ [m],
    subscribers := st.subscribers.map fun s => { s with queue := s.queue ++ [.turn m] } }

/-- Embedding of `WorkflowBridge.emit_chunk`: push the token to every
subscriber with `put_nowait`, dropping it where the enqueue raises, and never
touch the history. -/
def emit_chunk (st : BridgeSt) (token : String) : BridgeSt :=
  { st with
    subscribers := st.subscribers.map fun s =>
      if s.dead then s else { s with queue := s.queue ++ [.chunk token] } }

/-- A publication-side operation on the bridge. -/
inductive BridgeOp where
  | pub (source content msg_type : String)
  | chk (token : String)
deriving DecidableEq, Repr

def runBridge (st : BridgeSt) : List BridgeOp → BridgeSt
  | [] => st
  | .pub s c t :: ops => runBridge (emit st s c t) ops
  | .chk tok :: ops => runBridge (emit_chunk st tok) ops

/-- The durable turns published by a sequence of bridge operations. -/
def durablesOf : List BridgeOp → List BridgeMsg
  | [] => []
  | .pub s c t :: ops => ⟨s, c, t⟩ :: durablesOf ops
  | .chk _ :: ops => durablesOf ops

/-- The durable turns sitting in a subscriber queue, in order. -/
def turnsIn (q : List BridgeEntry) : List BridgeMsg :=
  q.filterMap fun e => match e with | .turn m => some m | .chunk _ => none

/-! ### The websocket subscribe/replay/live path

Embedding of `websocket_endpoint` (src/web/app.py, lines 85-104) for one
subscriber: `bridge.subscribe()` registers the queue, then the handler
replays `bridge.messages` — a `for` loop over the *live* list, one `await
send_json` per element, so turns appended during the replay are seen by it —
and only afterwards starts `send_task`, which drains the queue.  Each
cooperative-scheduling step of this arrangement is one `WsAction`; turns are
numeric ids. -/

inductive WsAction where
  | emitTurn (t : Nat)
  | replayStep
  | liveStep
deriving DecidableEq, Repr

structure WsState where
  history : List Nat
  subQueue : List Nat
  replayPos : Nat
  replayDone : Bool
  delivered : List Nat
deriving DecidableEq, Repr

/-- One interleaving step.  `emitTurn` is `WorkflowBridge.emit` with the
subscriber already registered; `replayStep` is one iteration (or the final
exit test) of the history `for` loop; `liveStep` is one iteration of
`send_task`, enabled only once the replay loop has finished. -/
def wsStep (st : WsState) : WsAction → WsState
  | .emitTurn t =>
      { st with history := st.history ++ [t], subQueue := st.subQueue ++ [t] }
  | .replayStep =>
      if st.replayDone then st
      else if h : st.replayPos < st.history.length then
        { st with
          delivered := st.delivered ++ [st.history.get ⟨st.replayPos, h⟩],
          replayPos := st.replayPos + 1 }
      else { st with replayDone := true }
  | .liveStep =>
      if st.replayDone then
        match st.subQueue with
        | [] => st
        | m :: rest => { st with subQueue := rest, delivered := st.delivered ++ [m] }
      else st

def wsRun (st : WsState) (acts : List WsAction) : WsState :=
  acts.foldl wsStep st

/-- The handler state right after `bridge.subscribe()` when `h0` is the
durable history already published. -/
def wsInit (h0 : List Nat) : WsState :=
  ⟨h0, [], 0, false, []⟩

/-- The turns published by a sequence of interleaving actions. -/
def wsEmitted : List WsAction → List Nat
  | [] => []
  | .emitTurn t :: acts => t :: wsEmitted acts
  | .replayStep :: acts => wsEmitted acts
  | .liveStep :: acts => wsEmitted acts

/-- Delivery invariant of one subscriber handler relative to the durable
history `h0` present when it joined.  While its replay loop is running, its
deliveries are exactly the replayed prefix of the history and every turn
published since the join sits in its queue exactly once.  Once the replay
has finished, its deliveries followed by the still-queued turns are: the
join-time history `h0`, then the turns `E1` published during the replay
window twice (replayed once, queued once), then the turns `E2` published
after the replay once — all in publish order. -/
def WsInv (h0 : List Nat) (st : WsState) : Prop :=
  (st.replayDone = false
    ∧ ∃ E, st.history = h0 ++ E ∧ st.subQueue = E
      ∧ st.delivered = st.history.take st.replayPos
      ∧ st.replayPos ≤ st.history.length)
  ∨ (st.replayDone = true
    ∧ ∃ E1 E2 pending, st.history = h0 ++ E1 ++ E2
      ∧ st.subQueue = pending
      ∧ st.delivered ++ pending = h0 ++ E1 ++ E1 ++ E2)

/-! ### The reflection loop

`create_code_review_loop` (src/workflow/reflection.py, lines 16-48) only
configures an AutoGen `RoundRobinGroupChat` with the termination condition
`TextMentionTermination(marker) | MaxMessageTermination(max_rounds * 2)`; the
loop driver itself lives in the AutoGen library, outside this repository.
Modelled from the spec: each round is one producer turn then one critic turn
(two transcript entries), the loop stops as soon as the newest turn mentions
the approval marker or the transcript has reached `max_rounds * 2` entries,
and otherwise the two participants keep alternating. -/

structure LoopTurn where
  speaker : String
  content : String
deriving DecidableEq, Repr

/-- Termination test after each turn: approval marker in the newest turn, or
the message cap reached. -/
def loopTerminated (marker : String) (maxMsgs : Nat) (transcript : List LoopTurn) : Bool :=
  (match transcript.getLast? with
   | some t => strHasSub t.content marker
   | none => false) || decide (maxMsgs ≤ transcript.length)

/-- The round-robin driver, fuel-bounded.  The speaker of entry `i` is the
producer for even `i` and the critic for odd `i`; `gen` supplies each turn's
content from its index. -/
def runLoopAux (producer critic : String) (gen : Nat → String) (marker : String)
    (maxMsgs : Nat) : Nat → List LoopTurn → List LoopTurn
  | 0, tr => tr
  | fuel + 1, tr =>
    if loopTerminated marker maxMsgs tr then tr
    else
      runLoopAux producer critic gen marker maxMsgs fuel
        (tr ++ [⟨if tr.length % 2 = 0 then producer else critic, gen tr.length⟩])

/-- A full run of the reflection loop with round budget `maxRounds`. -/
def runReflectionLoop (producer critic : String) (gen : Nat → String)
    (marker : String) (maxRounds : Nat) : List LoopTurn :=
  runLoopAux producer critic gen marker (maxRounds * 2) (maxRounds * 2) []

/-! ### The fidelity-gate comparison threshold

Embedding of the decision part of `compare_screenshots_tool`
(src/utils/image_compare.py, lines 49-57): given the SSIM score, the tool
computes `passed = similarity >= 0.70` and reports accordingly.  The score is
abstracted as a rational input. -/

/-- Mirror of `settings.SIMILARITY_THRESHOLD` (src/config/settings.py, line 113). -/
def SIMILARITY_THRESHOLD : ℚ := 70 / 100

/-- The pass flag and verdict text produced by `compare_screenshots_tool`. -/
def compare_screenshots_tool (similarity : ℚ) : Bool × String :=
  let passed := decide (70 / 100 ≤ similarity)
  (passed, if passed then "通过 ✓ 页面还原度达标" else "未通过 ✗ 页面还原度不足，需要代码编写智能体优化")

/-! ### Cancellation while awaiting input

Embedding of `WorkflowBridge.request_cancel` (src/web/bridge.py, lines
107-116) together with the exception handling of `run_workflow_web`
(src/workflow/orchestrator.py, lines 108-121).  The orchestrator is suspended
at `await self.input_queue.get()` inside `request_input`; `request_cancel`
sets the cancel event and, when a live workflow task is registered, calls
`task.cancel()`, whose `CancelledError` (standard asyncio semantics) is
raised at that suspension point on the next scheduler tick and caught by
`run_workflow_web`. -/

structure WebWf where
  awaitingInput : Bool
  finished : Bool
  stopped : Bool
  cancelEvent : Bool
  taskRegistered : Bool
  taskCancelled : Bool
  inputQueue : List String
  running : Bool
  waiting_for_input : Bool
  msgs : List BridgeMsg
deriving DecidableEq, Repr

/-- Embedding of `request_cancel`: set the event; if a workflow task is
registered and not done, request its cancellation. -/
def request_cancel (st : WebWf) : WebWf :=
  let st1 := { st with cancelEvent := true }
  if st1.taskRegistered && !st1.finished then { st1 with taskCancelled := true } else st1

/-- One scheduler tick while the orchestrator sits in `request_input`.  A
pending task cancellation resolves the suspension with `CancelledError`,
which `run_workflow_web` catches: it emits the stopped turn, and its
`finally` block clears the flags and emits the completion turn.  Otherwise a
queued input value resumes the orchestrator, which records the input as a
user turn. -/
def tick (st : WebWf) : WebWf :=
  if st.finished then st
  else if st.awaitingInput then
    if st.taskCancelled then
      { st with
        awaitingInput := false, finished := true, stopped := true,
        running := false, waiting_for_input := false,
        msgs := st.msgs ++ [⟨"system", "工作流已被用户停止。", "system"⟩,
                            ⟨"system", "工作流已结束。", "workflow_complete"⟩] }
    else
      match st.inputQueue with
      | [] => st
      | text :: rest =>
        { st with
          awaitingInput := false, waiting_for_input := false, inputQueue := rest,
          msgs := st.msgs ++ [⟨"user", text, "user"⟩] }
  else st

/-! ## Theorems -/

/-! ### Router scan lemmas -/

theorem cooldownActive_congr {cds cds' : Nat → Option ℚ} {idx : Nat} {now : ℚ}
    (h : cds' idx = cds idx) :
    cooldownActive cds' idx now = cooldownActive cds idx now := by
  unfold cooldownActive
  rw [h]

theorem cooldownActive_setCooldown_ne (cds : Nat → Option ℚ) (x y : Nat) (t now : ℚ)
    (h : y ≠ x) :
    cooldownActive (setCooldown cds x t) y now = cooldownActive cds y now :=
  cooldownActive_congr (by simp [setCooldown, h])

theorem rlAttempted_congr {cds cds' : Nat → Option ℚ} {now : ℚ} {pre : List Nat}
    (h : ∀ y ∈ pre, cooldownActive cds' y now = cooldownActive cds y now) :
    rlAttempted cds' now pre = rlAttempted cds now pre := by
  unfold rlAttempted
  exact List.filter_congr fun y hy => by rw [h y hy]

/-- Pushing a segment of rate-limit-only endpoints through the scan loop:
the loop attempts exactly the non-cooling ones, stamps each with the cooldown
deadline, remembers that a rate limit was seen if any was attempted, and
continues with the rest of the order. -/
theorem scanList_rl_segment (beh : Nat → AttemptResult) (now cdSec : ℚ) (pre : List Nat) :
    ∀ (rest : List Nat) (cds : Nat → Option ℚ) (atts : List Nat) (saw : Bool),
      pre.Nodup →
      (∀ x ∈ pre, cooldownActive cds x now = false → beh x = .rateLimited) →
      scanList beh now cdSec (pre ++ rest) cds atts saw =
        scanList beh now cdSec rest (cdsAfterRL cds now cdSec pre)
          (atts ++ rlAttempted cds now pre)
          (saw || !(rlAttempted cds now pre).isEmpty) := by
  induction pre with
  | nil =>
    intro rest cds atts saw _ _
    have hc : cdsAfterRL cds now cdSec [] = cds := by
      funext y
      simp [cdsAfterRL]
    simp [hc, rlAttempted]
  | cons x pre ih =>
    intro rest cds atts saw hnd hbeh
    have hxpre : x ∉ pre := (List.nodup_cons.mp hnd).1
    have hnd' : pre.Nodup := (List.nodup_cons.mp hnd).2
    rw [List.cons_append]
    simp only [scanList]
    by_cases hact : cooldownActive cds x now = true
    · rw [if_pos hact]
      rw [ih rest cds atts saw hnd' fun y hy hel => hbeh y (List.mem_cons_of_mem _ hy) hel]
      have h1 : cdsAfterRL cds now cdSec pre = cdsAfterRL cds now cdSec (x :: pre) := by
        funext y
        by_cases hy : y = x
        · subst hy
          simp [cdsAfterRL, hact, hxpre]
        · simp [cdsAfterRL, List.mem_cons, hy]
      have h2 : rlAttempted cds now pre = rlAttempted cds now (x :: pre) := by
        simp [rlAttempted, List.filter_cons, hact]
      rw [h1, h2]
    · have hact' : cooldownActive cds x now = false := by
        revert hact
        cases cooldownActive cds x now <;> simp
      rw [if_neg hact]
      rw [hbeh x (List.mem_cons_self x pre) hact']
      have hele : ∀ y ∈ pre,
          cooldownActive (setCooldown cds x (now + cdSec)) y now = cooldownActive cds y now :=
        fun y hy =>
          cooldownActive_setCooldown_ne cds x y _ now fun e => hxpre (e ▸ hy)
      rw [ih rest (setCooldown cds x (now + cdSec)) (atts ++ [x]) true hnd'
        fun y hy hel => hbeh y (List.mem_cons_of_mem _ hy) ((hele y hy).symm ▸ hel)]
      have ha : cdsAfterRL (setCooldown cds x (now + cdSec)) now cdSec pre
          = cdsAfterRL cds now cdSec (x :: pre) := by
        funext y
        by_cases hy : y = x
        · subst hy
          simp [cdsAfterRL, hxpre, setCooldown, hact']
        · have : setCooldown cds x (now + cdSec) y = cds y := by simp [setCooldown, hy]
          simp [cdsAfterRL, List.mem_cons, hy, cooldownActive_setCooldown_ne cds x y _ now hy,
            this]
      have hb : rlAttempted (setCooldown cds x (now + cdSec)) now pre
          = rlAttempted cds now pre :=
        rlAttempted_congr hele
      have hcons : rlAttempted cds now (x :: pre) = x :: rlAttempted cds now pre := by
        simp [rlAttempted, List.filter_cons, hact']
      rw [ha, hb, hcons]
      simp [List.append_assoc]

theorem scanOrder_injOn (cur n : Nat) :
    ∀ i, i < n → ∀ j, j < n → (cur + i) % n = (cur + j) % n → i = j := by
  intro i hi j hj h
  have h1 : i % n = j % n := Nat.ModEq.add_left_cancel' cur h
  rwa [Nat.mod_eq_of_lt hi, Nat.mod_eq_of_lt hj] at h1

theorem range_map_mod_nodup (cur n k : Nat) (hk : k ≤ n) :
    ((List.range k).map fun i => (cur + i) % n).Nodup := by
  refine List.Nodup.map_on ?_ (List.nodup_range k)
  intro i hi j hj h
  exact scanOrder_injOn cur n i (lt_of_lt_of_le (List.mem_range.mp hi) hk) j
    (lt_of_lt_of_le (List.mem_range.mp hj) hk) h

theorem mod_not_mem_range_map (cur n k : Nat) (hk : k < n) :
    (cur + k) % n ∉ (List.range k).map fun i => (cur + i) % n := by
  intro hmem
  obtain ⟨j, hj, hje⟩ := List.mem_map.mp hmem
  have hjk := List.mem_range.mp hj
  have := scanOrder_injOn cur n j (lt_trans hjk hk) k hk hje
  omega

theorem scanOrder_split (cur n k : Nat) (hk : k < n) :
    scanOrder cur n
      = ((List.range k).map fun i => (cur + i) % n)
        ++ ((cur + k) % n)
          :: ((List.range' (k + 1) (n - (k + 1))).map fun i => (cur + i) % n) := by
  unfold scanOrder
  rw [List.range_eq_range']
  have h1 : List.range' 0 n = List.range' 0 k ++ List.range' k (n - k) := by
    have h := List.range'_append_1 0 k (n - k)
    rw [Nat.zero_add] at h
    rw [h]
    congr 1
    omega
  have h2 : List.range' k (n - k) = k :: List.range' (k + 1) (n - (k + 1)) := by
    have h3 : n - k = (n - (k + 1)) + 1 := by omega
    rw [h3, List.range'_succ]
  rw [h1, h2, List.map_append, List.map_cons, ← List.range_eq_range']

/-! ### Claim theorems -/

/-- C8: for every pair of screenshots whose comparison yields similarity `s`,
the fidelity-gate tool reports the result as passed if and only if
`s ≥ 0.70`, the configured acceptance-threshold default. -/
theorem compare_tool_pass_iff (s : ℚ) :
    (compare_screenshots_tool s).1 = true ↔ SIMILARITY_THRESHOLD ≤ s := by
  simp [compare_screenshots_tool, SIMILARITY_THRESHOLD]

/-- C10: whenever the last message of a non-empty sequence has source
`code_writer`, the deterministic selector returns `code_reviewer` — never
`result_reviewer` and never the `None` that would invoke the LLM fallback —
whatever the message's content. -/
theorem selector_after_writer_deterministic (msgs : List Msg) (last : Msg)
    (hlast : msgs.getLast? = some last) (hsrc : last.source = "code_writer") :
    custom_selector_func msgs = some "code_reviewer" := by
  unfold custom_selector_func
  rw [hlast]
  dsimp only
  rw [hsrc]
  rfl

theorem selector_after_writer_deterministic_witness :
    ([Msg.mk "code_writer" "REVIEW_REJECTED RESULT_REJECTED"].getLast?
        = some (Msg.mk "code_writer" "REVIEW_REJECTED RESULT_REJECTED")
      ∧ (Msg.mk "code_writer" "REVIEW_REJECTED RESULT_REJECTED").source = "code_writer")
    ∧ custom_selector_func [Msg.mk "code_writer" "REVIEW_REJECTED RESULT_REJECTED"]
        = some "code_reviewer" :=
  ⟨⟨rfl, rfl⟩,
   selector_after_writer_deterministic _ _ rfl rfl⟩

/-- C5 counterexample: a last message from `code_reviewer` whose content
contains `REVIEW_REJECTED` does not always route to `code_writer` — when the
content also contains `REVIEW_APPROVED`, the earlier approval rule fires and
the selector returns `result_reviewer` instead. -/
theorem selector_both_markers_cex :
    strHasSub "REVIEW_APPROVED but also REVIEW_REJECTED" "REVIEW_REJECTED" = true
    ∧ custom_selector_func [Msg.mk "code_reviewer" "REVIEW_APPROVED but also REVIEW_REJECTED"]
        = some "result_reviewer"
    ∧ some "result_reviewer" ≠ some "code_writer" := by
  refine ⟨by decide, by decide, by decide⟩

/-- C5 (amended): if the last message is from `code_reviewer` and contains
`REVIEW_REJECTED` but not `REVIEW_APPROVED`, or is from `result_reviewer`
and contains `RESULT_REJECTED`, the deterministic selector returns
`code_writer` directly, with no fallback to the LLM chooser. -/
theorem selector_rejection_routes_to_writer (msgs : List Msg) (last : Msg)
    (hlast : msgs.getLast? = some last)
    (h : (last.source = "code_reviewer"
            ∧ strHasSub last.content "REVIEW_REJECTED" = true
            ∧ strHasSub last.content "REVIEW_APPROVED" = false)
         ∨ (last.source = "result_reviewer"
            ∧ strHasSub last.content "RESULT_REJECTED" = true)) :
    custom_selector_func msgs = some "code_writer" := by
  unfold custom_selector_func
  rw [hlast]
  dsimp only
  rcases h with ⟨hs, hr, ha⟩ | ⟨hs, hr⟩
  · rw [hs, ha, hr]
    rfl
  · rw [hs, hr]
    rfl

theorem selector_rejection_routes_to_writer_witness :
    ([Msg.mk "result_reviewer" "RESULT_REJECTED: fix spacing"].getLast?
        = some (Msg.mk "result_reviewer" "RESULT_REJECTED: fix spacing")
      ∧ ((Msg.mk "result_reviewer" "RESULT_REJECTED: fix spacing").source = "result_reviewer"
          ∧ strHasSub (Msg.mk "result_reviewer" "RESULT_REJECTED: fix spacing").content
              "RESULT_REJECTED" = true))
    ∧ custom_selector_func [Msg.mk "result_reviewer" "RESULT_REJECTED: fix spacing"]
        = some "code_writer" :=
  ⟨⟨rfl, rfl, by decide⟩,
   selector_rejection_routes_to_writer _ _ rfl (Or.inr ⟨rfl, by decide⟩)⟩

/-- C1 counterexample: called while every endpoint's cooldown deadline lies in
the future, `create` performs no sleep and no extra attempt at all — the scan
skips every endpoint, `last_error` stays `None`, and the call surfaces
`RuntimeError` immediately instead of running the wait-and-retry cycle. -/
theorem router_all_cooling_fails_without_retry_cex :
    (∀ i, i < 1 → cooldownActive (fun _ => some 100) i 0 = true)
    ∧ (create 1 (fun _ => .success 5) (.success 5) 0 60 10
        ⟨0, fun _ => some 100⟩).sleeps = []
    ∧ (create 1 (fun _ => .success 5) (.success 5) 0 60 10
        ⟨0, fun _ => some 100⟩).outcome = .errNoClient
    ∧ (create 1 (fun _ => .success 5) (.success 5) 0 60 10
        ⟨0, fun _ => some 100⟩).attempts = [] := by
  refine ⟨by decide, by decide, by decide, by decide⟩

/-- C7: if cancellation is requested while the orchestrator is suspended in
`request_input` and the workflow task is registered, the next scheduler tick
resolves the suspension with a cancellation outcome: the stage unwinds, the
run finishes as stopped, and the stopped and completion notifications are
published to observers. -/
theorem cancel_resolves_request_input (st : WebWf)
    (hawait : st.awaitingInput = true) (hreg : st.taskRegistered = true)
    (hfin : st.finished = false) :
    (tick (request_cancel st)).finished = true
    ∧ (tick (request_cancel st)).stopped = true
    ∧ (tick (request_cancel st)).awaitingInput = false
    ∧ (tick (request_cancel st)).running = false
    ∧ (tick (request_cancel st)).msgs
        = st.msgs ++ [⟨"system", "工作流已被用户停止。", "system"⟩,
                      ⟨"system", "工作流已结束。", "workflow_complete"⟩] := by
  simp [request_cancel, tick, hawait, hreg, hfin]

theorem cancel_resolves_request_input_witness :
    ((WebWf.mk true false false false true false [] true true []).awaitingInput = true
      ∧ (WebWf.mk true false false false true false [] true true []).taskRegistered = true
      ∧ (WebWf.mk true false false false true false [] true true []).finished = false)
    ∧ (tick (request_cancel (WebWf.mk true false false false true false [] true true []))).finished = true
    ∧ (tick (request_cancel (WebWf.mk true false false false true false [] true true []))).stopped = true
    ∧ (tick (request_cancel (WebWf.mk true false false false true false [] true true []))).awaitingInput = false
    ∧ (tick (request_cancel (WebWf.mk true false false false true false [] true true []))).running = false
    ∧ (tick (request_cancel (WebWf.mk true false false false true false [] true true []))).msgs
        = [] ++ [⟨"system", "工作流已被用户停止。", "system"⟩,
                 ⟨"system", "工作流已结束。", "workflow_complete"⟩] :=
  ⟨⟨rfl, rfl, rfl⟩,
   cancel_resolves_request_input (WebWf.mk true false false false true false [] true true [])
     rfl rfl rfl⟩

/-- C4: when the endpoints the scan tries first fail only with rate-limit
errors and a later endpoint succeeds, `create` returns that endpoint's
response, makes it the preferred index, and stamps every rate-limited
endpoint's cooldown deadline with the call clock plus the configured cooldown
duration — all in the same call, with no wait. -/
theorem router_rate_limit_fallback_success
    (n k r : Nat) (beh : Nat → AttemptResult) (retryBeh : AttemptResult)
    (now cdSec waitSec : ℚ) (st : RouterState)
    (hk : k < n)
    (hel : cooldownActive st.cooldowns ((st.currentIndex + k) % n) now = false)
    (hsucc : beh ((st.currentIndex + k) % n) = .success r)
    (hpre : ∀ j, j < k → cooldownActive st.cooldowns ((st.currentIndex + j) % n) now = false →
        beh ((st.currentIndex + j) % n) = .rateLimited) :
    (create n beh retryBeh now cdSec waitSec st).outcome = .ok r
    ∧ (create n beh retryBeh now cdSec waitSec st).state.currentIndex
        = (st.currentIndex + k) % n
    ∧ (∀ j, j < k → cooldownActive st.cooldowns ((st.currentIndex + j) % n) now = false →
        (create n beh retryBeh now cdSec waitSec st).state.cooldowns
          ((st.currentIndex + j) % n) = some (now + cdSec))
    ∧ (create n beh retryBeh now cdSec waitSec st).sleeps = [] := by
  have hnodup : ((List.range k).map fun i => (st.currentIndex + i) % n).Nodup :=
    range_map_mod_nodup st.currentIndex n k hk.le
  have hnotmem := mod_not_mem_range_map st.currentIndex n k hk
  have hbx : ∀ x ∈ (List.range k).map fun i => (st.currentIndex + i) % n,
      cooldownActive st.cooldowns x now = false → beh x = .rateLimited := by
    intro x hx hel'
    obtain ⟨j, hj, rfl⟩ := List.mem_map.mp hx
    exact hpre j (List.mem_range.mp hj) hel'
  have hcds : cdsAfterRL st.cooldowns now cdSec
      ((List.range k).map fun i => (st.currentIndex + i) % n) ((st.currentIndex + k) % n)
      = st.cooldowns ((st.currentIndex + k) % n) := by
    simp [cdsAfterRL, hnotmem]
  have hactA : cooldownActive
      (cdsAfterRL st.cooldowns now cdSec ((List.range k).map fun i => (st.currentIndex + i) % n))
      ((st.currentIndex + k) % n) now = false := by
    rw [cooldownActive_congr hcds]
    exact hel
  have hscan : scanList beh now cdSec (scanOrder st.currentIndex n) st.cooldowns [] false
      = .found r ((st.currentIndex + k) % n)
          (cdsAfterRL st.cooldowns now cdSec
            ((List.range k).map fun i => (st.currentIndex + i) % n))
          (([] ++ rlAttempted st.cooldowns now
              ((List.range k).map fun i => (st.currentIndex + i) % n))
            ++ [(st.currentIndex + k) % n]) := by
    rw [scanOrder_split st.currentIndex n k hk]
    rw [scanList_rl_segment beh now cdSec _ _ st.cooldowns [] false hnodup hbx]
    simp only [scanList]
    rw [if_neg (by simp [hactA])]
    rw [hsucc]
  unfold create
  rw [hscan]
  refine ⟨rfl, rfl, fun j hj helj => ?_, rfl⟩
  show cdsAfterRL st.cooldowns now cdSec
      ((List.range k).map fun i => (st.currentIndex + i) % n) ((st.currentIndex + j) % n)
    = some (now + cdSec)
  have hmem : (st.currentIndex + j) % n
      ∈ (List.range k).map fun i => (st.currentIndex + i) % n :=
    List.mem_map.mpr ⟨j, List.mem_range.mpr hj, rfl⟩
  simp [cdsAfterRL, hmem, helj]

theorem router_rate_limit_fallback_success_witness :
    (2 < 3
      ∧ cooldownActive (fun _ => none) ((0 + 2) % 3) 0 = false
      ∧ (fun i => if i = 2 then AttemptResult.success 42 else AttemptResult.rateLimited)
          ((0 + 2) % 3) = AttemptResult.success 42
      ∧ (∀ j, j < 2 →
          cooldownActive (fun _ => none) ((0 + j) % 3) 0 = false →
          (fun i => if i = 2 then AttemptResult.success 42 else AttemptResult.rateLimited)
            ((0 + j) % 3) = AttemptResult.rateLimited))
    ∧ (create 3 (fun i => if i = 2 then AttemptResult.success 42 else AttemptResult.rateLimited)
        AttemptResult.rateLimited 0 60 10 ⟨0, fun _ => none⟩).outcome = .ok 42 :=
  ⟨⟨by decide, by decide, by decide, by decide⟩,
   (router_rate_limit_fallback_success 3 2 42
      (fun i => if i = 2 then AttemptResult.success 42 else AttemptResult.rateLimited)
      AttemptResult.rateLimited 0 60 10 ⟨0, fun _ => none⟩
      (by decide) (by decide) (by decide) (by decide)).1⟩

/-- C9: a non-rate-limit failure raised by an endpoint attempt propagates to
the caller immediately: the attempt list stops at the failing endpoint, no
cooldown is recorded for that failure, the preferred index is unchanged, and
no wait is performed. -/
theorem router_non_rate_limit_propagates
    (n k e : Nat) (beh : Nat → AttemptResult) (retryBeh : AttemptResult)
    (now cdSec waitSec : ℚ) (st : RouterState)
    (hk : k < n)
    (hel : cooldownActive st.cooldowns ((st.currentIndex + k) % n) now = false)
    (hfail : beh ((st.currentIndex + k) % n) = .failure e)
    (hpre : ∀ j, j < k → cooldownActive st.cooldowns ((st.currentIndex + j) % n) now = false →
        beh ((st.currentIndex + j) % n) = .rateLimited) :
    (create n beh retryBeh now cdSec waitSec st).outcome = .errNonRateLimit e
    ∧ (create n beh retryBeh now cdSec waitSec st).state.currentIndex = st.currentIndex
    ∧ (create n beh retryBeh now cdSec waitSec st).state.cooldowns ((st.currentIndex + k) % n)
        = st.cooldowns ((st.currentIndex + k) % n)
    ∧ (create n beh retryBeh now cdSec waitSec st).sleeps = []
    ∧ (create n beh retryBeh now cdSec waitSec st).attempts
        = rlAttempted st.cooldowns now ((List.range k).map fun i => (st.currentIndex + i) % n)
          ++ [(st.currentIndex + k) % n] := by
  have hnodup : ((List.range k).map fun i => (st.currentIndex + i) % n).Nodup :=
    range_map_mod_nodup st.currentIndex n k hk.le
  have hnotmem := mod_not_mem_range_map st.currentIndex n k hk
  have hbx : ∀ x ∈ (List.range k).map fun i => (st.currentIndex + i) % n,
      cooldownActive st.cooldowns x now = false → beh x = .rateLimited := by
    intro x hx hel'
    obtain ⟨j, hj, rfl⟩ := List.mem_map.mp hx
    exact hpre j (List.mem_range.mp hj) hel'
  have hcds : cdsAfterRL st.cooldowns now cdSec
      ((List.range k).map fun i => (st.currentIndex + i) % n) ((st.currentIndex + k) % n)
      = st.cooldowns ((st.currentIndex + k) % n) := by
    simp [cdsAfterRL, hnotmem]
  have hactA : cooldownActive
      (cdsAfterRL st.cooldowns now cdSec ((List.range k).map fun i => (st.currentIndex + i) % n))
      ((st.currentIndex + k) % n) now = false := by
    rw [cooldownActive_congr hcds]
    exact hel
  have hscan : scanList beh now cdSec (scanOrder st.currentIndex n) st.cooldowns [] false
      = .thrown e
          (cdsAfterRL st.cooldowns now cdSec
            ((List.range k).map fun i => (st.currentIndex + i) % n))
          (([] ++ rlAttempted st.cooldowns now
              ((List.range k).map fun i => (st.currentIndex + i) % n))
            ++ [(st.currentIndex + k) % n]) := by
    rw [scanOrder_split st.currentIndex n k hk]
    rw [scanList_rl_segment beh now cdSec _ _ st.cooldowns [] false hnodup hbx]
    simp only [scanList]
    rw [if_neg (by simp [hactA])]
    rw [hfail]
  unfold create
  rw [hscan]
  exact ⟨rfl, rfl, hcds, rfl, by simp⟩

theorem router_non_rate_limit_propagates_witness :
    (1 < 2
      ∧ cooldownActive (fun _ => none) ((0 + 1) % 2) 0 = false
      ∧ (fun i => if i = 1 then AttemptResult.failure 7 else AttemptResult.rateLimited)
          ((0 + 1) % 2) = AttemptResult.failure 7
      ∧ (∀ j, j < 1 →
          cooldownActive (fun _ => none) ((0 + j) % 2) 0 = false →
          (fun i => if i = 1 then AttemptResult.failure 7 else AttemptResult.rateLimited)
            ((0 + j) % 2) = AttemptResult.rateLimited))
    ∧ (create 2 (fun i => if i = 1 then AttemptResult.failure 7 else AttemptResult.rateLimited)
        AttemptResult.rateLimited 0 60 10 ⟨0, fun _ => none⟩).outcome = .errNonRateLimit 7 :=
  ⟨⟨by decide, by decide, by decide, by decide⟩,
   (router_non_rate_limit_propagates 2 1 7
      (fun i => if i = 1 then AttemptResult.failure 7 else AttemptResult.rateLimited)
      AttemptResult.rateLimited 0 60 10 ⟨0, fun _ => none⟩
      (by decide) (by decide) (by decide) (by decide)).1⟩

/-- C1 (amended): if at least one endpoint is attempted and every endpoint
attempt during the call fails with a rate-limit error, `create` sleeps for
the configured retry-wait duration exactly once, clears every cooldown entry,
resets the preferred index to the first endpoint, and attempts endpoint 0
exactly once more; if instead every endpoint is already cooling down when the
call starts, the call raises immediately with no sleep and no retry (see the
counterexample). -/
theorem router_all_rate_limited_single_retry
    (n : Nat) (beh : Nat → AttemptResult) (retryBeh : AttemptResult)
    (now cdSec waitSec : ℚ) (st : RouterState)
    (hbeh : ∀ i, beh i = .rateLimited)
    (hel : ∃ i, i < n ∧ cooldownActive st.cooldowns ((st.currentIndex + i) % n) now = false) :
    (create n beh retryBeh now cdSec waitSec st).sleeps = [waitSec]
    ∧ (create n beh retryBeh now cdSec waitSec st).state.currentIndex = 0
    ∧ (∀ i, (create n beh retryBeh now cdSec waitSec st).state.cooldowns i = none)
    ∧ (create n beh retryBeh now cdSec waitSec st).attempts
        = rlAttempted st.cooldowns now (scanOrder st.currentIndex n) ++ [0] := by
  obtain ⟨i0, hi0, hact0⟩ := hel
  have hnodup : (scanOrder st.currentIndex n).Nodup :=
    range_map_mod_nodup st.currentIndex n n le_rfl
  have hbx : ∀ x ∈ scanOrder st.currentIndex n,
      cooldownActive st.cooldowns x now = false → beh x = .rateLimited :=
    fun x _ _ => hbeh x
  have hmem0 : (st.currentIndex + i0) % n ∈ rlAttempted st.cooldowns now (scanOrder st.currentIndex n) := by
    refine List.mem_filter.mpr ⟨?_, by simp [hact0]⟩
    exact List.mem_map.mpr ⟨i0, List.mem_range.mpr hi0, rfl⟩
  have hne : rlAttempted st.cooldowns now (scanOrder st.currentIndex n) ≠ [] :=
    List.ne_nil_of_mem hmem0
  have hsaw : (false || !(rlAttempted st.cooldowns now (scanOrder st.currentIndex n)).isEmpty)
      = true := by
    cases hrl : rlAttempted st.cooldowns now (scanOrder st.currentIndex n) with
    | nil => exact absurd hrl hne
    | cons a l => simp
  have hscan : scanList beh now cdSec (scanOrder st.currentIndex n) st.cooldowns [] false
      = .exhausted (cdsAfterRL st.cooldowns now cdSec (scanOrder st.currentIndex n))
          ([] ++ rlAttempted st.cooldowns now (scanOrder st.currentIndex n)) true := by
    have h := scanList_rl_segment beh now cdSec (scanOrder st.currentIndex n) []
      st.cooldowns [] false hnodup hbx
    rw [List.append_nil] at h
    rw [h, hsaw]
    rfl
  unfold create
  rw [hscan]
  cases retryBeh <;> exact ⟨rfl, rfl, fun i => rfl, by simp⟩

theorem router_all_rate_limited_single_retry_witness :
    ((∀ i : Nat, (fun _ => AttemptResult.rateLimited) i = AttemptResult.rateLimited)
      ∧ ∃ i, i < 1 ∧ cooldownActive (fun _ => none) ((0 + i) % 1) 0 = false)
    ∧ (create 1 (fun _ => AttemptResult.rateLimited) AttemptResult.rateLimited 0 60 10
        ⟨0, fun _ => none⟩).sleeps = [10] :=
  ⟨⟨fun _ => rfl, 0, by decide, by decide⟩,
   (router_all_rate_limited_single_retry 1 (fun _ => AttemptResult.rateLimited)
      AttemptResult.rateLimited 0 60 10 ⟨0, fun _ => none⟩
      (fun _ => rfl) ⟨0, by decide, by decide⟩).1⟩

/-- C2 counterexample: a turn published while the late joiner's history replay
is still in progress is delivered to that subscriber twice — once by the
replay loop, which iterates the live history list, and once more from its
subscription queue. -/
theorem ws_duplicate_delivery_cex :
    (wsRun (wsInit [0]) [.replayStep, .emitTurn 1, .replayStep, .replayStep, .liveStep]).delivered
      = [0, 1, 1]
    ∧ List.count 1
        (wsRun (wsInit [0]) [.replayStep, .emitTurn 1, .replayStep, .replayStep, .liveStep]).delivered
      = 2 := by
  refine ⟨by decide, by decide⟩

/-! ### Websocket replay lemmas -/

theorem wsRun_nil (st : WsState) : wsRun st [] = st := rfl

theorem wsRun_cons (st : WsState) (a : WsAction) (acts : List WsAction) :
    wsRun st (a :: acts) = wsRun (wsStep st a) acts := rfl

theorem take_append_left (l1 l2 : List α) (n : Nat) (h : n ≤ l1.length) :
    (l1 ++ l2).take n = l1.take n := by
  rw [List.take_append_eq_append_take, Nat.sub_eq_zero_of_le h]
  simp

/-- One interleaving step preserves the subscriber delivery invariant. -/
theorem wsInv_step (h0 : List Nat) (st : WsState) (a : WsAction)
    (hI : WsInv h0 st) : WsInv h0 (wsStep st a) := by
  unfold WsInv at hI ⊢
  obtain ⟨h, q, p, d, del⟩ := st
  rcases hI with ⟨hdone, E, hhist, hq, hdel, hpos⟩ | ⟨hdone, E1, E2, pending, hhist, hq, hdel⟩
  · simp only at hdone hhist hq hdel hpos
    subst hdone
    subst hq
    cases a with
    | emitTurn t =>
      have hstep : wsStep ⟨h, q, p, false, del⟩ (.emitTurn t)
          = ⟨h ++ [t], q ++ [t], p, false, del⟩ := rfl
      rw [hstep]
      left
      refine ⟨rfl, q ++ [t], ?_, rfl, ?_, ?_⟩
      · rw [hhist, List.append_assoc]
      · rw [take_append_left h [t] p hpos, hdel]
      · simp only [List.length_append]
        omega
    | replayStep =>
      by_cases hlt : p < h.length
      · have hstep : wsStep ⟨h, q, p, false, del⟩ .replayStep
            = ⟨h, q, p + 1, false, del ++ [h.get ⟨p, hlt⟩]⟩ := by
          simp [wsStep, hlt]
        rw [hstep]
        left
        refine ⟨rfl, q, hhist, rfl, ?_, by simpa using hlt⟩
        rw [hdel, List.take_succ, List.getElem?_eq_getElem hlt]
        simp
      · have hpe : p = h.length := by omega
        have hstep : wsStep ⟨h, q, p, false, del⟩ .replayStep
            = ⟨h, q, p, true, del⟩ := by
          simp [wsStep, hlt]
        rw [hstep]
        right
        refine ⟨rfl, q, [], q, by simpa using hhist, rfl, ?_⟩
        rw [hdel, hpe, List.take_length, hhist]
        simp [List.append_assoc]
    | liveStep =>
      have hstep : wsStep ⟨h, q, p, false, del⟩ .liveStep = ⟨h, q, p, false, del⟩ := rfl
      rw [hstep]
      exact Or.inl ⟨rfl, q, hhist, rfl, hdel, hpos⟩
  · simp only at hdone hhist hq hdel
    subst hdone
    subst hq
    cases a with
    | emitTurn t =>
      have hstep : wsStep ⟨h, q, p, true, del⟩ (.emitTurn t)
          = ⟨h ++ [t], q ++ [t], p, true, del⟩ := rfl
      rw [hstep]
      right
      refine ⟨rfl, E1, E2 ++ [t], q ++ [t], ?_, rfl, ?_⟩
      · rw [hhist, List.append_assoc, List.append_assoc]
      · rw [← List.append_assoc, hdel]
        simp [List.append_assoc]
    | replayStep =>
      have hstep : wsStep ⟨h, q, p, true, del⟩ .replayStep = ⟨h, q, p, true, del⟩ := rfl
      rw [hstep]
      exact Or.inr ⟨rfl, E1, E2, q, hhist, rfl, hdel⟩
    | liveStep =>
      cases q with
      | nil =>
        have hstep : wsStep ⟨h, [], p, true, del⟩ .liveStep = ⟨h, [], p, true, del⟩ := rfl
        rw [hstep]
        exact Or.inr ⟨rfl, E1, E2, [], hhist, rfl, hdel⟩
      | cons m q' =>
        have hstep : wsStep ⟨h, m :: q', p, true, del⟩ .liveStep
            = ⟨h, q', p, true, del ++ [m]⟩ := rfl
        rw [hstep]
        right
        refine ⟨rfl, E1, E2, q', hhist, rfl, ?_⟩
        rw [List.append_assoc]
        simpa using hdel

/-- The subscriber delivery invariant holds along every interleaving. -/
theorem wsInv_run (h0 : List Nat) :
    ∀ (acts : List WsAction) (st : WsState), WsInv h0 st → WsInv h0 (wsRun st acts) := by
  intro acts
  induction acts with
  | nil => intro st hI; exact hI
  | cons a acts ih =>
    intro st hI
    rw [wsRun_cons]
    exact ih _ (wsInv_step h0 st a hI)

/-! ### Bridge fan-out lemmas -/

theorem runBridge_messages :
    ∀ (ops : List BridgeOp) (st : BridgeSt),
      (runBridge st ops).messages = st.messages ++ durablesOf ops := by
  intro ops
  induction ops with
  | nil => intro st; simp [runBridge, durablesOf]
  | cons op ops ih =>
    intro st
    cases op with
    | pub s c t =>
      simp only [runBridge]
      rw [ih]
      simp [emit, durablesOf]
    | chk tok =>
      simp only [runBridge]
      rw [ih]
      simp [emit_chunk, durablesOf]

theorem runBridge_sub_length :
    ∀ (ops : List BridgeOp) (st : BridgeSt),
      (runBridge st ops).subscribers.length = st.subscribers.length := by
  intro ops
  induction ops with
  | nil => intro st; rfl
  | cons op ops ih =>
    intro st
    cases op with
    | pub s c t =>
      simp only [runBridge]
      rw [ih]
      simp [emit]
    | chk tok =>
      simp only [runBridge]
      rw [ih]
      simp [emit_chunk]

theorem runBridge_turnsIn :
    ∀ (ops : List BridgeOp) (st : BridgeSt) (i : Nat),
      ((runBridge st ops).subscribers[i]?).map (fun s => turnsIn s.queue)
        = (st.subscribers[i]?).map (fun s => turnsIn s.queue ++ durablesOf ops) := by
  intro ops
  induction ops with
  | nil =>
    intro st i
    simp only [runBridge, durablesOf]
    cases st.subscribers[i]? <;> simp
  | cons op ops ih =>
    intro st i
    cases op with
    | pub s c t =>
      simp only [runBridge]
      rw [ih]
      simp only [emit, List.getElem?_map]
      cases st.subscribers[i]? with
      | none => rfl
      | some sub => simp [turnsIn, List.filterMap_append, durablesOf]
    | chk tok =>
      simp only [runBridge]
      rw [ih]
      simp only [emit_chunk, List.getElem?_map]
      cases st.subscribers[i]? with
      | none => rfl
      | some sub =>
        by_cases hd : sub.dead <;>
          simp [hd, turnsIn, List.filterMap_append, durablesOf]

theorem runBridge_dead_queue :
    ∀ (ops : List BridgeOp) (st : BridgeSt) (i : Nat) (s : Subscriber),
      st.subscribers[i]? = some s → s.dead = true →
      (runBridge st ops).subscribers[i]?
        = some ⟨s.queue ++ (durablesOf ops).map BridgeEntry.turn, true⟩ := by
  intro ops
  induction ops with
  | nil =>
    intro st i s hs hd
    obtain ⟨q, d⟩ := s
    simp only at hd
    subst hd
    simpa [runBridge, durablesOf] using hs
  | cons op ops ih =>
    intro st i s hs hd
    obtain ⟨q, d⟩ := s
    simp only at hd
    subst hd
    cases op with
    | pub src c t =>
      simp only [runBridge]
      have hstep : (emit st src c t).subscribers[i]?
          = some ⟨q ++ [.turn ⟨src, c, t⟩], true⟩ := by
        simp [emit, List.getElem?_map, hs]
      have := ih (emit st src c t) i ⟨q ++ [.turn ⟨src, c, t⟩], true⟩ hstep rfl
      rw [this]
      simp [durablesOf]
    | chk tok =>
      simp only [runBridge]
      have hstep : (emit_chunk st tok).subscribers[i]? = some ⟨q, true⟩ := by
        simp [emit_chunk, List.getElem?_map, hs]
      have := ih (emit_chunk st tok) i ⟨q, true⟩ hstep rfl
      rw [this]
      simp [durablesOf]

/-! ### Reflection loop lemmas -/

theorem runLoopAux_length (producer critic : String) (gen : Nat → String) (marker : String)
    (maxMsgs : Nat) :
    ∀ (fuel : Nat) (tr : List LoopTurn),
      (runLoopAux producer critic gen marker maxMsgs fuel tr).length ≤ tr.length + fuel := by
  intro fuel
  induction fuel with
  | zero => intro tr; simp [runLoopAux]
  | succ fuel ih =>
    intro tr
    simp only [runLoopAux]
    by_cases h : loopTerminated marker maxMsgs tr = true
    · rw [if_pos h]
      omega
    · rw [if_neg h]
      have hstep := ih
        (tr ++ [⟨if tr.length % 2 = 0 then producer else critic, gen tr.length⟩])
      simp only [List.length_append, List.length_singleton] at hstep
      omega

theorem runLoopAux_speaker (producer critic : String) (gen : Nat → String) (marker : String)
    (maxMsgs : Nat) :
    ∀ (fuel : Nat) (tr : List LoopTurn),
      (∀ i, i < tr.length →
        (tr[i]?).map LoopTurn.speaker = some (if i % 2 = 0 then producer else critic)) →
      ∀ i, i < (runLoopAux producer critic gen marker maxMsgs fuel tr).length →
        ((runLoopAux producer critic gen marker maxMsgs fuel tr)[i]?).map LoopTurn.speaker
          = some (if i % 2 = 0 then producer else critic) := by
  intro fuel
  induction fuel with
  | zero =>
    intro tr hinv
    simpa [runLoopAux] using hinv
  | succ fuel ih =>
    intro tr hinv
    simp only [runLoopAux]
    by_cases h : loopTerminated marker maxMsgs tr = true
    · rw [if_pos h]
      exact hinv
    · rw [if_neg h]
      apply ih
      intro i hilen
      simp only [List.length_append, List.length_singleton] at hilen
      rcases Nat.lt_or_ge i tr.length with hlt | hge
      · rw [List.getElem?_append, if_pos hlt]
        exact hinv i hlt
      · have hieq : i = tr.length := by omega
        subst hieq
        rw [List.getElem?_concat_length]
        rfl

/-! ### Remaining claim theorems -/

/-- C2 (amended): for every interleaving of publications, replay steps and
live deliveries after a subscriber joins over durable history `h0`, either
its replay is still in progress — its deliveries are exactly the replayed
prefix of the history (prior history first, nothing skipped, nothing
duplicated) and every turn published since the join is queued for it exactly
once — or the replay has finished and its deliveries followed by its
still-queued turns are exactly: the prior history `h0` once, then the turns
`E1` published during the replay window twice (once replayed, once live),
then the turns `E2` published after the replay exactly once, in publish
order.  Hence no durable turn is ever missing, and only turns published
during the replay window can reach the subscriber twice. -/
theorem ws_delivery_characterization (h0 : List Nat) (acts : List WsAction) :
    ((wsRun (wsInit h0) acts).replayDone = false
      ∧ ∃ E, (wsRun (wsInit h0) acts).history = h0 ++ E
        ∧ (wsRun (wsInit h0) acts).subQueue = E
        ∧ (wsRun (wsInit h0) acts).delivered
            = ((wsRun (wsInit h0) acts).history).take (wsRun (wsInit h0) acts).replayPos
        ∧ (wsRun (wsInit h0) acts).replayPos ≤ ((wsRun (wsInit h0) acts).history).length)
    ∨ ((wsRun (wsInit h0) acts).replayDone = true
      ∧ ∃ E1 E2 pending, (wsRun (wsInit h0) acts).history = h0 ++ E1 ++ E2
        ∧ (wsRun (wsInit h0) acts).subQueue = pending
        ∧ (wsRun (wsInit h0) acts).delivered ++ pending = h0 ++ E1 ++ E1 ++ E2) := by
  have hinit : WsInv h0 (wsInit h0) := by
    unfold WsInv
    left
    exact ⟨rfl, [], by simp [wsInit], rfl, by simp [wsInit], by simp [wsInit]⟩
  exact wsInv_run h0 acts (wsInit h0) hinit

/-- C6: every durable turn published through `emit` is appended to the history
and enqueued to every currently active subscription exactly once, in publish
order; token chunks are never appended to the history, and for a subscriber
whose enqueue fails they are dropped without disturbing its durable turns. -/
theorem bridge_durable_fanout (st : BridgeSt) (ops : List BridgeOp) (i : Nat)
    (hi : i < st.subscribers.length) :
    (runBridge st ops).messages = st.messages ++ durablesOf ops
    ∧ (runBridge st ops).subscribers.length = st.subscribers.length
    ∧ ((runBridge st ops).subscribers[i]?).map (fun s => turnsIn s.queue)
        = (st.subscribers[i]?).map (fun s => turnsIn s.queue ++ durablesOf ops)
    ∧ (∀ s : Subscriber, st.subscribers[i]? = some s → s.dead = true →
        (runBridge st ops).subscribers[i]?
          = some ⟨s.queue ++ (durablesOf ops).map BridgeEntry.turn, true⟩) :=
  ⟨runBridge_messages ops st, runBridge_sub_length ops st, runBridge_turnsIn ops st i,
   fun s hs hd => runBridge_dead_queue ops st i s hs hd⟩

theorem bridge_durable_fanout_witness :
    0 < (BridgeSt.mk [] [⟨[], true⟩]).subscribers.length
    ∧ (runBridge (BridgeSt.mk [] [⟨[], true⟩])
        [.pub "code_writer" "done" "agent", .chk "tok"]).messages
      = [] ++ durablesOf [.pub "code_writer" "done" "agent", .chk "tok"] :=
  ⟨by decide,
   (bridge_durable_fanout (BridgeSt.mk [] [⟨[], true⟩])
      [.pub "code_writer" "done" "agent", .chk "tok"] 0 (by decide)).1⟩

/-- C3: for every round budget `N ≥ 1`, the reflection loop terminates after
at most `2 * N` transcript turns even if the critic never emits the approval
marker, and each completed round contributes exactly one producer turn (even
position) followed by one critic turn (odd position). -/
theorem reflection_loop_round_bound (producer critic : String) (gen : Nat → String)
    (marker : String) (N : Nat) (hN : 1 ≤ N) :
    (runReflectionLoop producer critic gen marker N).length ≤ 2 * N
    ∧ ∀ k, 2 * k + 1 < (runReflectionLoop producer critic gen marker N).length →
        ((runReflectionLoop producer critic gen marker N)[2 * k]?).map LoopTurn.speaker
            = some producer
        ∧ ((runReflectionLoop producer critic gen marker N)[2 * k + 1]?).map LoopTurn.speaker
            = some critic := by
  constructor
  · have h := runLoopAux_length producer critic gen marker (N * 2) (N * 2) []
    simp only [List.length_nil, Nat.zero_add] at h
    simpa [runReflectionLoop, Nat.mul_comm] using h
  · intro k hk
    simp only [runReflectionLoop] at hk ⊢
    have hsp := runLoopAux_speaker producer critic gen marker (N * 2) (N * 2) []
      (by intro i hi; simp at hi)
    constructor
    · have h1 := hsp (2 * k) (by omega)
      rw [if_pos (by omega)] at h1
      exact h1
    · have h2 := hsp (2 * k + 1) (by omega)
      rw [if_neg (by omega)] at h2
      exact h2

theorem reflection_loop_round_bound_witness :
    1 ≤ 1
    ∧ ((runReflectionLoop "code_writer" "code_reviewer" (fun _ => "draft")
          "REVIEW_APPROVED" 1).length ≤ 2 * 1
      ∧ ∀ k, 2 * k + 1
            < (runReflectionLoop "code_writer" "code_reviewer" (fun _ => "draft")
                "REVIEW_APPROVED" 1).length →
          ((runReflectionLoop "code_writer" "code_reviewer" (fun _ => "draft")
              "REVIEW_APPROVED" 1)[2 * k]?).map LoopTurn.speaker = some "code_writer"
          ∧ ((runReflectionLoop "code_writer" "code_reviewer" (fun _ => "draft")
              "REVIEW_APPROVED" 1)[2 * k + 1]?).map LoopTurn.speaker
              = some "code_reviewer") :=
  ⟨le_refl 1,
   reflection_loop_round_bound "code_writer" "code_reviewer" (fun _ => "draft")
     "REVIEW_APPROVED" 1 (le_refl 1)⟩

end AutoGenDemo
